import Mathlib

/-!
Verification of the MonStim CSV analysis core (EMG_Utils.py, emg_transform.py).

Modelling conventions, chosen to mirror the Python source:
* Python floats are modelled as exact rationals (`ℚ`).
* IEEE NaN, as produced by `np.mean`/`np.std` on an empty array and propagated
  through arithmetic, is modelled by `Option ℚ` with `none` standing for NaN.
* Python's `int(...)` truncates toward zero; Python's `round` rounds half to
  even; Python list slicing `l[a:b]` interprets negative indices from the end
  and clamps both bounds to the list.  Each is modelled explicitly below.
* `np.std` is a square root of the population variance.  Because the square
  root of a rational is irrational in general, the embedding carries the exact
  square of the standard deviation (`np_std_sq`); `np.std` itself is the
  nonnegative square root of that value, so every claim about which data are
  pooled and which divisor is used is faithfully expressed on the square.
-/

/-- Python `int(q)` for a real `q`: truncation toward zero. -/
def pyInt (q : ℚ) : ℤ :=
  if 0 ≤ q then ⌊q⌋ else ⌈q⌉

/-- Python `round(q)`: round half to even (banker's rounding). -/
def pyRound (q : ℚ) : ℤ :=
  if q - ⌊q⌋ < 1/2 then ⌊q⌋
  else if 1/2 < q - ⌊q⌋ then ⌊q⌋ + 1
  else if 2 ∣ ⌊q⌋ then ⌊q⌋ else ⌊q⌋ + 1

/-- Python list slicing `l[a:b]` with integer bounds: a negative bound counts
from the end of the list, and both bounds are clamped to `[0, length]`. -/
def pySlice {α : Type*} (l : List α) (a b : ℤ) : List α :=
  let n : ℤ := l.length
  let s : ℤ := if a < 0 then max (n + a) 0 else min a n
  let e : ℤ := if b < 0 then max (n + b) 0 else min b n
  (l.drop s.toNat).take (e - s).toNat

/-- numpy `np.mean` on a list of actual numbers: NaN (`none`) when the list is
empty, otherwise the arithmetic mean. -/
def np_mean (a : List ℚ) : Option ℚ :=
  if a.isEmpty then none else some (a.sum / a.length)

/-- emg_transform.rectify_emg: elementwise absolute value (`np.abs`). -/
def rectify_emg (emg_array : List ℚ) : List ℚ :=
  emg_array.map (fun x => |x|)

/-- emg_transform.calculate_average_amplitude: converts the millisecond bounds
to sample indices with Python `int`, slices the samples with Python slice
semantics, rectifies, and takes `np.mean` (NaN when the window is empty). -/
def calculate_average_amplitude (emg_data : List ℚ) (start_ms end_ms scan_rate : ℚ) :
    Option ℚ :=
  let start_index := pyInt (start_ms * scan_rate / 1000)
  let end_index := pyInt (end_ms * scan_rate / 1000)
  let emg_window := pySlice emg_data start_index end_index
  let rectified_emg_window := rectify_emg emg_window
  np_mean rectified_emg_window

/-- numpy `np.mean` on a list whose entries may already be NaN (`none`):
NaN if any entry is NaN or the list is empty. -/
def np_mean_nan (a : List (Option ℚ)) : Option ℚ :=
  if none ∈ a then none else np_mean (a.filterMap id)

/-- Population variance as numpy computes it inside `np.std` (ddof = 0):
mean of the squared deviations from the mean; NaN on an empty list. -/
def np_var_pop (xs : List ℚ) : Option ℚ :=
  match np_mean xs with
  | none => none
  | some μ => np_mean (xs.map (fun x => (x - μ)^2))

/-- Square of numpy `np.std` (population, ddof = 0) on a list whose entries may
be NaN.  `np.std a` is the nonnegative square root of this value. -/
def np_std_sq (a : List (Option ℚ)) : Option ℚ :=
  if none ∈ a then none else np_var_pop (a.filterMap id)

/-- One stimulus trial: stimulus intensity and per-channel sample sequences. -/
structure Recording where
  stimulus_v : ℚ
  channel_data : List (List ℚ)
deriving DecidableEq

/-- Channel access `recording['channel_data'][channel_index]`.  The claims are
only ever instantiated at in-range channel indices, where `getD` agrees with
Python indexing (which would raise `IndexError` out of range). -/
def channel_of (r : Recording) (i : ℕ) : List ℚ :=
  r.channel_data.getD i []

/-- Stimulus-voltage binning as written inline in emg_transform.calculate_mean_std:
`round(recording['stimulus_v'] / bin_size) * bin_size`. -/
def binned_v (bin_size : ℚ) (r : Recording) : ℚ :=
  (pyRound (r.stimulus_v / bin_size) : ℚ) * bin_size

/-- The accumulation loop of emg_transform.calculate_mean_std: walk the
recordings in order and, for each whose binned stimulus voltage equals the
target, append the M-window and H-window average amplitudes. -/
def pooled_amplitudes (recordings : List Recording) (stimulus_value : ℚ)
    (channel_index : ℕ) (m_start_ms m_end_ms h_start_ms h_end_ms bin_size scan_rate : ℚ) :
    List (Option ℚ) × List (Option ℚ) :=
  recordings.foldl
    (fun acc recording =>
      if binned_v bin_size recording = stimulus_value then
        (acc.1 ++ [calculate_average_amplitude (channel_of recording channel_index)
                    m_start_ms m_end_ms scan_rate],
         acc.2 ++ [calculate_average_amplitude (channel_of recording channel_index)
                    h_start_ms h_end_ms scan_rate])
      else acc)
    ([], [])

/-- emg_transform.calculate_mean_std: pooled per-recording amplitudes for the
matching recordings, then `np.mean` and `np.std` of each list (the std is
carried as its exact square, see `np_std_sq`). -/
def calculate_mean_std (recordings : List Recording) (stimulus_value : ℚ)
    (channel_index : ℕ) (m_start_ms m_end_ms h_start_ms h_end_ms bin_size scan_rate : ℚ) :
    Option ℚ × Option ℚ × Option ℚ × Option ℚ :=
  let amps := pooled_amplitudes recordings stimulus_value channel_index
    m_start_ms m_end_ms h_start_ms h_end_ms bin_size scan_rate
  (np_mean_nan amps.1, np_std_sq amps.1, np_mean_nan amps.2, np_std_sq amps.2)

/-- Process-wide configuration (config.yaml), read once and copied into each
instance at construction time. -/
structure Config where
  m_start : ℚ
  m_end : ℚ
  h_start : ℚ
  h_end : ℚ
  time_window : ℚ
  bin_size : ℚ
deriving DecidableEq

/-- Session-wide metadata of one pickled session record (`session_info`). -/
structure SessionInfo where
  session_name : String
  num_channels : ℕ
  scan_rate : ℚ
  num_samples : ℕ
  stim_duration : ℚ
  stim_interval : ℚ
  emg_amp_gains : List ℚ
deriving DecidableEq

/-- Shape of one deserialized session record. -/
structure SessionData where
  session_info : SessionInfo
  recordings : List Recording
deriving DecidableEq

/-- Comparator used by `sorted(session_data['recordings'], key=lambda x: x['stimulus_v'])`:
ascending by stimulus voltage. -/
def recLe (a b : Recording) : Bool :=
  decide (a.stimulus_v ≤ b.stimulus_v)

/-- EMGSession state after `__init__`/`load_session_data`. -/
structure EMGSession where
  session_name : String
  num_channels : ℕ
  scan_rate : ℚ
  num_samples : ℕ
  stim_duration : ℚ
  stim_interval : ℚ
  emg_amp_gains : List ℚ
  recordings : List Recording
  m_start : ℚ
  m_end : ℚ
  h_start : ℚ
  h_end : ℚ
  time_window_ms : ℚ
deriving DecidableEq

/-- EMGSession.__init__ / EMGSession.load_session_data: copy the session-wide
metadata, sort the recordings by stimulus voltage (Python's `sorted` is a
stable sort, modelled by `List.mergeSort`), and copy the configured analysis
windows. -/
def EMGSession_load (cfg : Config) (session_data : SessionData) : EMGSession :=
  { session_name := session_data.session_info.session_name
    num_channels := session_data.session_info.num_channels
    scan_rate := session_data.session_info.scan_rate
    num_samples := session_data.session_info.num_samples
    stim_duration := session_data.session_info.stim_duration
    stim_interval := session_data.session_info.stim_interval
    emg_amp_gains := session_data.session_info.emg_amp_gains
    recordings := session_data.recordings.mergeSort recLe
    m_start := cfg.m_start
    m_end := cfg.m_end
    h_start := cfg.h_start
    h_end := cfg.h_end
    time_window_ms := cfg.time_window }

/-- The public operations of EMGSession after loading, with their arguments. -/
inductive SessionOp where
  | session_parameters : SessionOp
  | plot_emg (channel_names : List String) (m_flags h_flags : Bool) : SessionOp
  | plot_emg_rectified (channel_names : List String) (m_flags h_flags : Bool) : SessionOp
  | plot_emg_suspectedH (channel_names : List String) (h_threshold : ℚ)
      (plot_legend : Bool) : SessionOp
  | plot_reflex_curves (channel_names : List String) : SessionOp

/-- Effect of each EMGSession method on the session state.  None of the five
methods assigns to any attribute of `self` (they only read the state, compute
derived values, and draw figures), so each leaves the state unchanged. -/
def runSessionOp (s : EMGSession) : SessionOp → EMGSession
  | .session_parameters => s
  | .plot_emg _ _ _ => s
  | .plot_emg_rectified _ _ _ => s
  | .plot_emg_suspectedH _ _ _ => s
  | .plot_reflex_curves _ => s

/-- Python errors raised by the code, plus the spec's `EmptyDatasetError`.
`valueError` is raised by `max()`/`min()` on an empty sequence; `indexError`
by indexing an empty list.  Modelled from the spec: `emptyDatasetError` is the
dedicated error class the spec names for empty-dataset construction; no such
class exists anywhere in the source, it is included only so that the claim
about it can be stated and compared against the actual behavior. -/
inductive PyError where
  | valueError : PyError
  | indexError : PyError
  | emptyDatasetError : PyError
deriving DecidableEq

/-- EMGDataset state after `__init__`. -/
structure EMGDataset where
  emg_sessions : List EMGSession
  scan_rate : ℚ
  num_channels : ℕ
  m_start : ℚ
  m_end : ℚ
  h_start : ℚ
  h_end : ℚ
  bin_size : ℚ
deriving DecidableEq

/-- EMGDataset.__init__: stores the session list and reads `scan_rate` and
`num_channels` from `emg_sessions[0]`.  On an empty list the subscript raises
Python's built-in `IndexError` (there is no emptiness check in the source). -/
def EMGDataset_make (cfg : Config) (emg_sessions : List EMGSession) :
    Except PyError EMGDataset :=
  match emg_sessions with
  | [] => .error .indexError
  | s :: _ =>
    .ok { emg_sessions := emg_sessions
          scan_rate := s.scan_rate
          num_channels := s.num_channels
          m_start := cfg.m_start
          m_end := cfg.m_end
          h_start := cfg.h_start
          h_end := cfg.h_end
          bin_size := cfg.bin_size }

/-- The recording pooling performed at the top of EMGDataset.plot_reflex_curves:
start from `[]`, extend with each member session's recordings in order, then
stable-sort the concatenation by stimulus voltage.  It is computed afresh at
each call from the current member sessions; the dataset object stores no
pooled-recordings attribute. -/
def dataset_sorted_recordings (d : EMGDataset) : List Recording :=
  (d.emg_sessions.foldl (fun acc s => acc ++ s.recordings) []).mergeSort recLe

/-- The target voltages of EMGDataset.plot_reflex_curves:
`sorted(list(set([round(r['stimulus_v']/bin_size)*bin_size for r in sorted_recordings])))`,
the distinct binned stimulus voltages of the pooled recordings, ascending. -/
def dataset_stimulus_voltages (d : EMGDataset) : List ℚ :=
  (((dataset_sorted_recordings d).map (fun r => binned_v d.bin_size r)).dedup).mergeSort
    (fun a b => decide (a ≤ b))

/-- H-window slice from EMGSession.plot_emg_suspectedH:
`recording['channel_data'][channel_index][int(h_start*scan_rate/1000):int(h_end*scan_rate/1000)]`. -/
def h_window_slice (s : EMGSession) (recording : Recording) (channel_index : ℕ) :
    List ℚ :=
  pySlice (channel_of recording channel_index)
    (pyInt (s.h_start * s.scan_rate / 1000)) (pyInt (s.h_end * s.scan_rate / 1000))

/-- The H-reflex candidate test inline in EMGSession.plot_emg_suspectedH:
`max(h_window) - min(h_window) > h_threshold`.  Python's `max`/`min` raise
`ValueError` on an empty sequence. -/
def detect_candidate_h_reflex (s : EMGSession) (recording : Recording)
    (channel_index : ℕ) (h_threshold : ℚ) : Except PyError Bool :=
  let h_window := h_window_slice s recording channel_index
  match h_window.max?, h_window.min? with
  | some mx, some mn => .ok (decide (mx - mn > h_threshold))
  | _, _ => .error .valueError

/-- Modelled from the spec: the slice `[a, b)` of a sequence, the elements
whose position `i` satisfies `a ≤ i < b` (positions count from the front). -/
def spec_slice {α : Type*} (l : List α) (a b : ℤ) : List α :=
  (l.take b.toNat).drop a.toNat

/-- Modelled from the spec: `windowed_average_amplitude` as §4.1 words it — the
arithmetic mean of the absolute values of the exact slice
`[floor(start_ms*scan_rate/1000), floor(end_ms*scan_rate/1000))`. -/
def spec_windowed_average_amplitude (emg_data : List ℚ)
    (start_ms end_ms scan_rate : ℚ) : Option ℚ :=
  np_mean ((spec_slice emg_data ⌊start_ms * scan_rate / 1000⌋
    ⌊end_ms * scan_rate / 1000⌋).map (fun x => |x|))

/-- Population mean: sum divided by the number N of data points. -/
def popMean (xs : List ℚ) : ℚ :=
  xs.sum / xs.length

/-- Population variance: mean squared deviation, divisor N (not N − 1). -/
def popVar (xs : List ℚ) : ℚ :=
  ((xs.map (fun x => (x - popMean xs)^2)).sum) / xs.length

/-- A configuration with the documented defaults (§6 of the module docstrings):
M window 2–4 ms, H window 4–7 ms, 10 ms display window, 0.05 V bins. -/
def cfg0 : Config :=
  { m_start := 2, m_end := 4, h_start := 4, h_end := 7,
    time_window := 10, bin_size := 1/20 }

/-- A concrete recording: stimulus 1 V, one channel with samples `[2, -4]`. -/
def rec0 : Recording :=
  { stimulus_v := 1, channel_data := [[2, -4]] }

/-- A concrete recording whose single channel has seven samples, so that the
4–7 ms H-window at 1000 Hz (sample indices 4 to 6) is non-empty. -/
def rec8 : Recording :=
  { stimulus_v := 1, channel_data := [[0, 0, 0, 0, 5, 1, 0]] }

/-- A concrete loaded session holding `rec0` (two samples per channel). -/
def sess0 : EMGSession :=
  { session_name := "s0", num_channels := 1, scan_rate := 1000, num_samples := 2,
    stim_duration := 1, stim_interval := 1, emg_amp_gains := [1],
    recordings := [rec0], m_start := 2, m_end := 4, h_start := 4, h_end := 7,
    time_window_ms := 10 }

/-- A concrete loaded session holding `rec8` (seven samples per channel). -/
def sess8 : EMGSession :=
  { session_name := "s8", num_channels := 1, scan_rate := 1000, num_samples := 7,
    stim_duration := 1, stim_interval := 1, emg_amp_gains := [1],
    recordings := [rec8], m_start := 2, m_end := 4, h_start := 4, h_end := 7,
    time_window_ms := 10 }

/-- The dataset produced by `EMGDataset_make cfg0 [sess0]`. -/
def ds7 : EMGDataset :=
  { emg_sessions := [sess0], scan_rate := 1000, num_channels := 1,
    m_start := 2, m_end := 4, h_start := 4, h_end := 7, bin_size := 1/20 }

/-- A concrete dataset over `sess0` with 1 V bins. -/
def ds0 : EMGDataset :=
  { emg_sessions := [sess0], scan_rate := 1000, num_channels := 1,
    m_start := 0, m_end := 1, h_start := 1, h_end := 2, bin_size := 1 }

/-- The three recordings of the §8 binning test case, stimulus voltages
1.01, 1.04 and 1.06 (sample data is irrelevant to the pooling property). -/
def c4_rec1 : Recording := { stimulus_v := 1.01, channel_data := [[1]] }

/-- Second recording of the §8 binning test case. -/
def c4_rec2 : Recording := { stimulus_v := 1.04, channel_data := [[2]] }

/-- Third recording of the §8 binning test case. -/
def c4_rec3 : Recording := { stimulus_v := 1.06, channel_data := [[3]] }

/-- The comparator `recLe` is transitive. -/
lemma recLe_trans : ∀ (a b c : Recording),
    recLe a b = true → recLe b c = true → recLe a c = true := by
  intro a b c hab hbc
  simp only [recLe, decide_eq_true_eq] at *
  exact le_trans hab hbc

/-- The comparator `recLe` is total. -/
lemma recLe_total : ∀ (a b : Recording), (recLe a b || recLe b a) = true := by
  intro a b
  simp only [recLe, Bool.or_eq_true, decide_eq_true_eq]
  exact le_total _ _

/-- Sorting with `recLe` yields a list non-decreasing in `stimulus_v`. -/
lemma pairwise_mergeSort_recLe (l : List Recording) :
    (l.mergeSort recLe).Pairwise (fun a b => a.stimulus_v ≤ b.stimulus_v) := by
  have h := List.sorted_mergeSort recLe_trans recLe_total l
  exact h.imp (by intro a b hab; simpa [recLe] using hab)

/-- Stability of the sort, phrased on filters: for each voltage `v`, the
subsequence of recordings with stimulus voltage `v` is unchanged by sorting. -/
lemma mergeSort_filter_key (l : List Recording) (v : ℚ) :
    (l.mergeSort recLe).filter (fun r => decide (r.stimulus_v = v)) =
      l.filter (fun r => decide (r.stimulus_v = v)) := by
  set p : Recording → Bool := fun r => decide (r.stimulus_v = v) with hp
  have hall : ∀ a ∈ l.filter p, a.stimulus_v = v := by
    intro a ha
    have := List.of_mem_filter ha
    simpa [hp] using this
  have hpw : (l.filter p).Pairwise (fun a b => recLe a b = true) := by
    refine List.pairwise_of_forall_mem_list ?_
    intro a ha b hb
    simp only [recLe, decide_eq_true_eq]
    rw [hall a ha, hall b hb]
  have hsub : (l.filter p).Sublist (l.mergeSort recLe) :=
    List.sublist_mergeSort recLe_trans recLe_total hpw (List.filter_sublist l)
  have h2 : (l.filter p).Sublist ((l.mergeSort recLe).filter p) := by
    have h3 := hsub.filter p
    have h4 : List.filter p (List.filter p l) = List.filter p l := by
      simp [List.filter_filter]
    rwa [h4] at h3
  have hperm : ((l.mergeSort recLe).filter p).Perm (l.filter p) :=
    (List.mergeSort_perm l recLe).filter p
  exact (h2.eq_of_length hperm.length_eq.symm).symm

/-- Each EMGSession method leaves the session state unchanged. -/
lemma runSessionOp_eq (s : EMGSession) (op : SessionOp) : runSessionOp s op = s := by
  cases op <;> rfl

/-- A whole sequence of EMGSession method calls leaves the state unchanged. -/
lemma foldl_runSessionOp (s : EMGSession) (ops : List SessionOp) :
    ops.foldl runSessionOp s = s := by
  induction ops generalizing s with
  | nil => rfl
  | cons op t ih => rw [List.foldl_cons, runSessionOp_eq, ih]

/-- Fold of a conditional pair-append over a list is filter-then-map. -/
lemma foldl_pair_filter (p : Recording → Prop) [DecidablePred p]
    (f g : Recording → Option ℚ) :
    ∀ (l : List Recording) (acc : List (Option ℚ) × List (Option ℚ)),
      l.foldl (fun acc r => if p r then (acc.1 ++ [f r], acc.2 ++ [g r]) else acc) acc
        = (acc.1 ++ (l.filter (fun r => decide (p r))).map f,
           acc.2 ++ (l.filter (fun r => decide (p r))).map g) := by
  intro l
  induction l with
  | nil => intro acc; simp
  | cons r t ih =>
    intro acc
    by_cases hr : p r
    · simp [hr, ih, List.filter_cons]
    · simp [hr, ih, List.filter_cons]

/-- The accumulation loop of calculate_mean_std builds exactly the per-window
amplitudes of the recordings whose binned stimulus voltage matches. -/
lemma pooled_amplitudes_eq_filter (recordings : List Recording) (v : ℚ) (ch : ℕ)
    (ms me hs he bin sr : ℚ) :
    pooled_amplitudes recordings v ch ms me hs he bin sr =
      ((recordings.filter (fun r => decide (binned_v bin r = v))).map
          (fun r => calculate_average_amplitude (channel_of r ch) ms me sr),
       (recordings.filter (fun r => decide (binned_v bin r = v))).map
          (fun r => calculate_average_amplitude (channel_of r ch) hs he sr)) := by
  have h := foldl_pair_filter (fun r => binned_v bin r = v)
    (fun r => calculate_average_amplitude (channel_of r ch) ms me sr)
    (fun r => calculate_average_amplitude (channel_of r ch) hs he sr)
    recordings ([], [])
  simpa [pooled_amplitudes] using h

/-- numpy mean of a NaN-free list of values. -/
lemma np_mean_nan_map_some (xs : List ℚ) :
    np_mean_nan (xs.map some) = np_mean xs := by
  simp [np_mean_nan, List.filterMap_map, Function.comp]

/-- numpy std square of a NaN-free list of values. -/
lemma np_std_sq_map_some (xs : List ℚ) :
    np_std_sq (xs.map some) = np_var_pop xs := by
  simp [np_std_sq, List.filterMap_map, Function.comp]

/-- On a non-empty list, numpy mean is the population mean. -/
lemma np_mean_eq_popMean (xs : List ℚ) (h : xs ≠ []) :
    np_mean xs = some (popMean xs) := by
  simp [np_mean, popMean, h]

/-- On a non-empty list, the square of numpy std is the population variance
(mean squared deviation, divisor N). -/
lemma np_var_pop_eq_popVar (xs : List ℚ) (h : xs ≠ []) :
    np_var_pop xs = some (popVar xs) := by
  have hmap : xs.map (fun x => (x - popMean xs)^2) ≠ [] := by
    simpa using h
  rw [np_var_pop, np_mean_eq_popMean xs h]
  show np_mean (xs.map (fun x => (x - popMean xs)^2)) = some (popVar xs)
  rw [np_mean_eq_popMean _ hmap]
  simp [popVar, popMean]

/-- With nonnegative bounds, Python slicing agrees with the mathematical slice
`[a, b)` (both clamp the upper bound to the length). -/
lemma pySlice_eq_spec_slice {α : Type*} (l : List α) (a b : ℤ)
    (ha : 0 ≤ a) (hb : 0 ≤ b) :
    pySlice l a b = spec_slice l a b := by
  unfold pySlice spec_slice
  dsimp only
  rw [if_neg (by omega), if_neg (by omega), List.drop_take]
  have hA : (min a (l.length : ℤ)).toNat = min a.toNat l.length := by omega
  have hE : (min b (l.length : ℤ) - min a (l.length : ℤ)).toNat
      = min b.toNat l.length - min a.toNat l.length := by omega
  rw [hA, hE]
  rcases le_total a.toNat l.length with hAN | hAN
  · rw [min_eq_left hAN]
    rcases le_total b.toNat l.length with hBN | hBN
    · rw [min_eq_left hBN]
    · rw [min_eq_right hBN]
      rw [List.take_of_length_le (by rw [List.length_drop]),
        List.take_of_length_le (by rw [List.length_drop]; omega)]
  · have hdrop : l.drop a.toNat = [] := by
      rw [List.drop_eq_nil_iff]
      omega
    rw [min_eq_right hAN, hdrop]
    have hdrop2 : l.drop l.length = ([] : List α) := by
      rw [List.drop_eq_nil_iff]
    rw [hdrop2]
    simp

/-- The fold of the maximum over a tail bounds every element of the list. -/
lemma le_foldl_max (x : ℚ) (xs : List ℚ) : ∀ y ∈ x :: xs, y ≤ xs.foldl max x := by
  induction xs generalizing x with
  | nil => intro y hy; simp at hy; simp [hy]
  | cons z t ih =>
    intro y hy
    have hstep : ∀ w ∈ max x z :: t, w ≤ t.foldl max (max x z) := ih (max x z)
    have hmem : (max x z) ∈ max x z :: t := List.mem_cons_self _ _
    rcases List.mem_cons.mp hy with rfl | hy'
    · calc y ≤ max y z := le_max_left _ _
        _ ≤ t.foldl max (max y z) := hstep _ hmem
    · rcases List.mem_cons.mp hy' with rfl | hy''
      · calc y ≤ max x y := le_max_right _ _
          _ ≤ t.foldl max (max x y) := hstep _ hmem
      · exact hstep y (List.mem_cons_of_mem _ hy'')

/-- The fold of the maximum over a tail is an element of the list. -/
lemma foldl_max_mem (x : ℚ) (xs : List ℚ) : xs.foldl max x ∈ x :: xs := by
  induction xs generalizing x with
  | nil => simp
  | cons z t ih =>
    have h := ih (max x z)
    rcases List.mem_cons.mp h with h1 | h1
    · rcases max_choice x z with h2 | h2 <;> rw [List.foldl_cons, h1, h2] <;> simp
    · simp [List.foldl_cons, List.mem_cons_of_mem, h1]

/-- The fold of the minimum over a tail is below every element of the list. -/
lemma foldl_min_le (x : ℚ) (xs : List ℚ) : ∀ y ∈ x :: xs, xs.foldl min x ≤ y := by
  induction xs generalizing x with
  | nil => intro y hy; simp at hy; simp [hy]
  | cons z t ih =>
    intro y hy
    have hstep : ∀ w ∈ min x z :: t, t.foldl min (min x z) ≤ w := ih (min x z)
    have hmem : (min x z) ∈ min x z :: t := List.mem_cons_self _ _
    rcases List.mem_cons.mp hy with rfl | hy'
    · calc t.foldl min (min y z) ≤ min y z := hstep _ hmem
        _ ≤ y := min_le_left _ _
    · rcases List.mem_cons.mp hy' with rfl | hy''
      · calc t.foldl min (min x y) ≤ min x y := hstep _ hmem
          _ ≤ y := min_le_right _ _
      · exact hstep y (List.mem_cons_of_mem _ hy'')

/-- The fold of the minimum over a tail is an element of the list. -/
lemma foldl_min_mem (x : ℚ) (xs : List ℚ) : xs.foldl min x ∈ x :: xs := by
  induction xs generalizing x with
  | nil => simp
  | cons z t ih =>
    have h := ih (min x z)
    rcases List.mem_cons.mp h with h1 | h1
    · rcases min_choice x z with h2 | h2 <;> rw [List.foldl_cons, h1, h2] <;> simp
    · simp [List.foldl_cons, List.mem_cons_of_mem, h1]

/-- The recording-pooling loop of EMGDataset.plot_reflex_curves concatenates
the member sessions' recording lists in order. -/
lemma foldl_append_recordings (ss : List EMGSession) :
    ss.foldl (fun acc s => acc ++ s.recordings) [] =
      (ss.map (fun s => s.recordings)).flatten := by
  suffices h : ∀ (l : List EMGSession) (acc : List Recording),
      l.foldl (fun acc s => acc ++ s.recordings) acc
        = acc ++ (l.map (fun s => s.recordings)).flatten by
    simpa using h ss []
  intro l
  induction l with
  | nil => intro acc; simp
  | cons s t ih => intro acc; simp [ih]

/-- numpy mean of a non-empty list of absolute values is a nonnegative number. -/
lemma np_mean_abs_nonneg (ys : List ℚ) (h : ys ≠ []) :
    ∃ q : ℚ, np_mean (ys.map (fun x => |x|)) = some q ∧ 0 ≤ q := by
  have hmap : ys.map (fun x => |x|) ≠ [] := by simpa using h
  refine ⟨popMean (ys.map (fun x => |x|)), np_mean_eq_popMean _ hmap, ?_⟩
  unfold popMean
  apply div_nonneg
  · apply List.sum_nonneg
    intro x hx
    obtain ⟨y, _, rfl⟩ := List.mem_map.mp hx
    exact abs_nonneg y
  · positivity

/-- C9: rectify is idempotent: for every real-valued sequence x,
rectify(rectify(x)) equals rectify(x) elementwise. -/
theorem c9_rectify_idempotent (x : List ℚ) :
    rectify_emg (rectify_emg x) = rectify_emg x := by
  simp [rectify_emg, List.map_map, Function.comp_def, abs_abs]

/-- C1: for every valid session record and every initial ordering of its
recordings, after Session load the recordings sequence is the stable sort of
the input ascending by stimulus_v (it is pairwise non-decreasing, a
permutation of the input, and for each voltage the recordings with that
voltage keep their original relative order), and this ordering is preserved
as an invariant by every sequence of subsequent EMGSession operations (none
of which modifies the session state). -/
theorem c1_load_sorts_recordings_stably_and_invariant (cfg : Config)
    (session_data : SessionData) (ops : List SessionOp) :
    ((ops.foldl runSessionOp (EMGSession_load cfg session_data)).recordings
        = session_data.recordings.mergeSort recLe)
    ∧ ((ops.foldl runSessionOp (EMGSession_load cfg session_data)).recordings).Pairwise
        (fun a b => a.stimulus_v ≤ b.stimulus_v)
    ∧ ((ops.foldl runSessionOp (EMGSession_load cfg session_data)).recordings).Perm
        session_data.recordings
    ∧ ∀ v : ℚ,
        ((ops.foldl runSessionOp (EMGSession_load cfg session_data)).recordings).filter
            (fun r => decide (r.stimulus_v = v))
          = session_data.recordings.filter (fun r => decide (r.stimulus_v = v)) := by
  rw [foldl_runSessionOp]
  exact ⟨rfl, pairwise_mergeSort_recLe _, List.mergeSort_perm _ _,
    fun v => mergeSort_filter_key _ v⟩

/-- C7: for every Dataset built from a non-empty list of sessions, the pooled
recording list is the stable sort by stimulus_v of the concatenation of the
member sessions' recordings (permutation, pairwise order, and per-voltage
stability below), its length is the sum of the member sessions' recording
counts, and it is a function of the current member sessions alone (the
dataset object caches no pooled state). -/
theorem c7_pooled_recordings (cfg : Config) (sessions : List EMGSession)
    (d : EMGDataset) (_h : EMGDataset_make cfg sessions = .ok d) :
    (dataset_sorted_recordings d).length
        = ((d.emg_sessions.map (fun s => s.recordings.length)).sum)
    ∧ (dataset_sorted_recordings d).Perm
        ((d.emg_sessions.map (fun s => s.recordings)).flatten)
    ∧ (dataset_sorted_recordings d).Pairwise (fun a b => a.stimulus_v ≤ b.stimulus_v)
    ∧ (∀ v : ℚ,
        (dataset_sorted_recordings d).filter (fun r => decide (r.stimulus_v = v))
          = ((d.emg_sessions.map (fun s => s.recordings)).flatten).filter
              (fun r => decide (r.stimulus_v = v)))
    ∧ (∀ d' : EMGDataset, d'.emg_sessions = d.emg_sessions →
        dataset_sorted_recordings d' = dataset_sorted_recordings d) := by
  have hperm : (dataset_sorted_recordings d).Perm
      ((d.emg_sessions.map (fun s => s.recordings)).flatten) := by
    unfold dataset_sorted_recordings
    rw [foldl_append_recordings]
    exact List.mergeSort_perm _ _
  refine ⟨?_, hperm, ?_, ?_, ?_⟩
  · rw [hperm.length_eq, List.length_flatten, List.map_map]
    rfl
  · unfold dataset_sorted_recordings
    exact pairwise_mergeSort_recLe _
  · intro v
    unfold dataset_sorted_recordings
    rw [foldl_append_recordings]
    exact mergeSort_filter_key _ v
  · intro d' hd'
    unfold dataset_sorted_recordings
    rw [hd']

/-- Witness for C7 at a concrete one-session dataset. -/
theorem c7_pooled_recordings_witness :
    EMGDataset_make cfg0 [sess0] = .ok ds7
    ∧ (dataset_sorted_recordings ds7).length
        = ((ds7.emg_sessions.map (fun s => s.recordings.length)).sum) :=
  ⟨rfl, (c7_pooled_recordings cfg0 [sess0] ds7 rfl).1⟩

/-- C2 (amended): for every sample sequence, every start_ms ≥ 0, every end_ms
and every positive scan_rate such that the slice
[floor(start_ms*scan_rate/1000), floor(end_ms*scan_rate/1000)) of the
sequence is non-empty, windowed_average_amplitude returns exactly the
arithmetic mean of the absolute values of that half-open slice, and the
result is non-negative.  (For negative start_ms the original claim fails:
Python's `int` truncates toward zero rather than flooring, and a negative
start index makes the slice wrap around from the end of the list, see the
counterexample.) -/
theorem c2_windowed_average_amplitude_mean_abs (emg_data : List ℚ)
    (start_ms end_ms scan_rate : ℚ) (hsr : 0 < scan_rate) (hstart : 0 ≤ start_ms)
    (hne : spec_slice emg_data ⌊start_ms * scan_rate / 1000⌋
        ⌊end_ms * scan_rate / 1000⌋ ≠ []) :
    calculate_average_amplitude emg_data start_ms end_ms scan_rate
        = spec_windowed_average_amplitude emg_data start_ms end_ms scan_rate
    ∧ ∃ q : ℚ, calculate_average_amplitude emg_data start_ms end_ms scan_rate = some q
        ∧ 0 ≤ q := by
  have hx : 0 ≤ start_ms * scan_rate / 1000 :=
    div_nonneg (mul_nonneg hstart hsr.le) (by norm_num)
  have hfx : 0 ≤ ⌊start_ms * scan_rate / 1000⌋ := Int.floor_nonneg.mpr hx
  have hfy : 0 ≤ ⌊end_ms * scan_rate / 1000⌋ := by
    by_contra hcon
    push_neg at hcon
    apply hne
    unfold spec_slice
    have h0 : (⌊end_ms * scan_rate / 1000⌋).toNat = 0 := by omega
    rw [h0]
    simp
  have hy : 0 ≤ end_ms * scan_rate / 1000 := Int.floor_nonneg.mp hfy
  have hpyx : pyInt (start_ms * scan_rate / 1000) = ⌊start_ms * scan_rate / 1000⌋ := by
    simp [pyInt, hx]
  have hpyy : pyInt (end_ms * scan_rate / 1000) = ⌊end_ms * scan_rate / 1000⌋ := by
    simp [pyInt, hy]
  have hkey : calculate_average_amplitude emg_data start_ms end_ms scan_rate
      = spec_windowed_average_amplitude emg_data start_ms end_ms scan_rate := by
    unfold calculate_average_amplitude spec_windowed_average_amplitude rectify_emg
    dsimp only
    rw [hpyx, hpyy, pySlice_eq_spec_slice _ _ _ hfx hfy]
  refine ⟨hkey, ?_⟩
  rw [hkey]
  unfold spec_windowed_average_amplitude
  exact np_mean_abs_nonneg _ hne

/-- Witness for C2 at a concrete input: samples [1,2,3,4], window 0–2 ms at
1000 Hz, i.e. sample indices [0, 2); the mean of |[1,2]| is 3/2. -/
theorem c2_windowed_average_amplitude_mean_abs_witness :
    (0 : ℚ) < 1000 ∧ (0 : ℚ) ≤ 0
    ∧ spec_slice [(1 : ℚ), 2, 3, 4] ⌊(0 : ℚ) * 1000 / 1000⌋ ⌊(2 : ℚ) * 1000 / 1000⌋ ≠ []
    ∧ (calculate_average_amplitude [(1 : ℚ), 2, 3, 4] 0 2 1000
        = spec_windowed_average_amplitude [(1 : ℚ), 2, 3, 4] 0 2 1000
      ∧ ∃ q : ℚ, calculate_average_amplitude [(1 : ℚ), 2, 3, 4] 0 2 1000 = some q
          ∧ 0 ≤ q) := by
  have h1 : (0 : ℚ) < 1000 := by norm_num
  have h2 : (0 : ℚ) ≤ 0 := le_refl 0
  have e1 : ⌊(0 : ℚ) * 1000 / 1000⌋ = (0 : ℤ) := by norm_num
  have e2 : ⌊(2 : ℚ) * 1000 / 1000⌋ = (2 : ℤ) := by norm_num
  have h3 : spec_slice [(1 : ℚ), 2, 3, 4] ⌊(0 : ℚ) * 1000 / 1000⌋
      ⌊(2 : ℚ) * 1000 / 1000⌋ ≠ [] := by
    rw [e1, e2]
    exact List.cons_ne_nil _ _
  exact ⟨h1, h2, h3, c2_windowed_average_amplitude_mean_abs _ _ _ _ h1 h2 h3⟩

/-- Counterexample to C2 as stated: with start_ms = −2 the original claim
fails.  At 1000 Hz the computed start index is −2; the spec's slice
[⌊−2⌋, ⌊4⌋) of [1,2,3,4] is the whole list with mean 5/2, but Python's
negative index wraps around, so the code averages the last two samples and
returns 7/2. -/
theorem c2_windowed_average_amplitude_counterexample :
    spec_slice [(1 : ℚ), 2, 3, 4] ⌊(-2 : ℚ) * 1000 / 1000⌋ ⌊(4 : ℚ) * 1000 / 1000⌋ ≠ []
    ∧ calculate_average_amplitude [(1 : ℚ), 2, 3, 4] (-2) 4 1000 = some (7/2)
    ∧ spec_windowed_average_amplitude [(1 : ℚ), 2, 3, 4] (-2) 4 1000 = some (5/2)
    ∧ calculate_average_amplitude [(1 : ℚ), 2, 3, 4] (-2) 4 1000
        ≠ spec_windowed_average_amplitude [(1 : ℚ), 2, 3, 4] (-2) 4 1000 := by
  have e1 : ⌊(-2 : ℚ) * 1000 / 1000⌋ = (-2 : ℤ) := by norm_num
  have e2 : ⌊(4 : ℚ) * 1000 / 1000⌋ = (4 : ℤ) := by norm_num
  have p1 : pyInt ((-2 : ℚ) * 1000 / 1000) = (-2 : ℤ) := by
    norm_num [pyInt]
    rw [show ((-2 : ℚ)) = ((-2 : ℤ) : ℚ) by norm_num, Int.ceil_intCast]
  have p2 : pyInt ((4 : ℚ) * 1000 / 1000) = (4 : ℤ) := by
    norm_num [pyInt]
  have ps : pySlice [(1 : ℚ), 2, 3, 4] (-2) 4 = [3, 4] := by
    norm_num [pySlice]
    rfl
  have hcode : calculate_average_amplitude [(1 : ℚ), 2, 3, 4] (-2) 4 1000
      = some (7/2) := by
    unfold calculate_average_amplitude
    dsimp only
    rw [p1, p2, ps]
    norm_num [rectify_emg, np_mean]
  have hspec : spec_windowed_average_amplitude [(1 : ℚ), 2, 3, 4] (-2) 4 1000
      = some (5/2) := by
    unfold spec_windowed_average_amplitude
    rw [e1, e2]
    rw [show spec_slice [(1 : ℚ), 2, 3, 4] (-2) 4 = [1, 2, 3, 4] from rfl]
    norm_num [np_mean]
  refine ⟨?_, hcode, hspec, ?_⟩
  · rw [e1, e2]
    exact List.cons_ne_nil _ _
  · rw [hcode, hspec]
    norm_num

/-- C3: for every set of recordings whose binned stimulus voltage equals the
target voltage, calculate_mean_std returns for the M-window and the H-window
the population mean and (as its exact square) the population standard
deviation — divisor N, not N−1 — of the per-recording windowed average
amplitudes over exactly that matching set. -/
theorem c3_aggregate_population_stats (recs : List Recording) (v : ℚ) (ch : ℕ)
    (ms me hs he bin sr : ℚ) (xsM xsH : List ℚ)
    (hM : (recs.filter (fun r => decide (binned_v bin r = v))).map
        (fun r => calculate_average_amplitude (channel_of r ch) ms me sr)
      = xsM.map some)
    (hH : (recs.filter (fun r => decide (binned_v bin r = v))).map
        (fun r => calculate_average_amplitude (channel_of r ch) hs he sr)
      = xsH.map some)
    (hne : recs.filter (fun r => decide (binned_v bin r = v)) ≠ []) :
    calculate_mean_std recs v ch ms me hs he bin sr
      = (some (popMean xsM), some (popVar xsM), some (popMean xsH), some (popVar xsH)) := by
  have hxsM : xsM ≠ [] := by
    intro hnil
    rw [hnil] at hM
    simp only [List.map_eq_nil_iff, List.map_nil] at hM
    exact hne hM
  have hxsH : xsH ≠ [] := by
    intro hnil
    rw [hnil] at hH
    simp only [List.map_eq_nil_iff, List.map_nil] at hH
    exact hne hH
  unfold calculate_mean_std
  rw [pooled_amplitudes_eq_filter]
  dsimp only
  rw [hM, hH, np_mean_nan_map_some, np_std_sq_map_some, np_mean_nan_map_some,
    np_std_sq_map_some, np_mean_eq_popMean _ hxsM, np_var_pop_eq_popVar _ hxsM,
    np_mean_eq_popMean _ hxsH, np_var_pop_eq_popVar _ hxsH]

/-- Witness for C3: one matching recording (stimulus 1 V, bin 1 V, target 1 V)
with channel samples [2, -4]; the 0–1 ms M window holds [2] and the 1–2 ms H
window holds [-4], so the means are 2 and 4 and both variances are 0. -/
theorem c3_aggregate_population_stats_witness :
    ([rec0].filter (fun r => decide (binned_v 1 r = 1))).map
        (fun r => calculate_average_amplitude (channel_of r 0) 0 1 1000)
      = [(2 : ℚ)].map some
    ∧ ([rec0].filter (fun r => decide (binned_v 1 r = 1))).map
        (fun r => calculate_average_amplitude (channel_of r 0) 1 2 1000)
      = [(4 : ℚ)].map some
    ∧ [rec0].filter (fun r => decide (binned_v 1 r = 1)) ≠ []
    ∧ calculate_mean_std [rec0] 1 0 0 1 1 2 1 1000
      = (some 2, some 0, some 4, some 0) := by
  have hbv : binned_v 1 rec0 = 1 := by
    norm_num [binned_v, pyRound, rec0]
  have hfil : [rec0].filter (fun r => decide (binned_v 1 r = 1)) = [rec0] := by
    simp [List.filter_cons, hbv]
  have hampM : calculate_average_amplitude (channel_of rec0 0) 0 1 1000 = some 2 := by
    unfold calculate_average_amplitude
    dsimp only
    rw [show pyInt ((0 : ℚ) * 1000 / 1000) = (0 : ℤ) by norm_num [pyInt],
      show pyInt ((1 : ℚ) * 1000 / 1000) = (1 : ℤ) by norm_num [pyInt],
      show pySlice (channel_of rec0 0) 0 1 = [(2 : ℚ)] from rfl]
    norm_num [rectify_emg, np_mean]
  have hampH : calculate_average_amplitude (channel_of rec0 0) 1 2 1000 = some 4 := by
    unfold calculate_average_amplitude
    dsimp only
    rw [show pyInt ((1 : ℚ) * 1000 / 1000) = (1 : ℤ) by norm_num [pyInt],
      show pyInt ((2 : ℚ) * 1000 / 1000) = (2 : ℤ) by norm_num [pyInt],
      show pySlice (channel_of rec0 0) 1 2 = [(-4 : ℚ)] from rfl]
    norm_num [rectify_emg, np_mean]
  have hM : ([rec0].filter (fun r => decide (binned_v 1 r = 1))).map
      (fun r => calculate_average_amplitude (channel_of r 0) 0 1 1000)
      = [(2 : ℚ)].map some := by
    rw [hfil]
    simp [hampM]
  have hH : ([rec0].filter (fun r => decide (binned_v 1 r = 1))).map
      (fun r => calculate_average_amplitude (channel_of r 0) 1 2 1000)
      = [(4 : ℚ)].map some := by
    rw [hfil]
    simp [hampH]
  have hne : [rec0].filter (fun r => decide (binned_v 1 r = 1)) ≠ [] := by
    rw [hfil]
    exact List.cons_ne_nil _ _
  refine ⟨hM, hH, hne, ?_⟩
  rw [c3_aggregate_population_stats [rec0] 1 0 0 1 1 2 1 1000 [2] [4] hM hH hne]
  norm_num [popMean, popVar]

/-- C4: for 3 recordings with stimulus_v = [1.01, 1.04, 1.06] and
bin_size = 0.05, binning by round(raw_v / bin_size) * bin_size maps them to
[1.00, 1.05, 1.05], and the aggregation for target voltage 1.05 pools
exactly the second and third recordings and no others (for every channel and
every window/scan-rate parameterisation). -/
theorem c4_binning_pools_second_and_third :
    (binned_v (0.05 : ℚ) c4_rec1 = 1
      ∧ binned_v (0.05 : ℚ) c4_rec2 = 1.05
      ∧ binned_v (0.05 : ℚ) c4_rec3 = 1.05)
    ∧ [c4_rec1, c4_rec2, c4_rec3].filter
        (fun r => decide (binned_v (0.05 : ℚ) r = 1.05)) = [c4_rec2, c4_rec3]
    ∧ ∀ (ch : ℕ) (ms me hs he sr : ℚ),
        pooled_amplitudes [c4_rec1, c4_rec2, c4_rec3] 1.05 ch ms me hs he 0.05 sr
          = pooled_amplitudes [c4_rec2, c4_rec3] 1.05 ch ms me hs he 0.05 sr := by
  have b1 : binned_v (0.05 : ℚ) c4_rec1 = 1 := by
    norm_num [binned_v, pyRound, c4_rec1]
  have b2 : binned_v (0.05 : ℚ) c4_rec2 = 1.05 := by
    norm_num [binned_v, pyRound, c4_rec2]
  have b3 : binned_v (0.05 : ℚ) c4_rec3 = 1.05 := by
    norm_num [binned_v, pyRound, c4_rec3]
  have hfil : [c4_rec1, c4_rec2, c4_rec3].filter
      (fun r => decide (binned_v (0.05 : ℚ) r = 1.05)) = [c4_rec2, c4_rec3] := by
    have hno : ¬ ((1 : ℚ) = 1.05) := by norm_num
    simp [List.filter_cons, b1, b2, b3, hno]
  have hfil' : [c4_rec2, c4_rec3].filter
      (fun r => decide (binned_v (0.05 : ℚ) r = 1.05)) = [c4_rec2, c4_rec3] := by
    simp [List.filter_cons, b2, b3]
  refine ⟨⟨b1, b2, b3⟩, hfil, ?_⟩
  intro ch ms me hs he sr
  rw [pooled_amplitudes_eq_filter, pooled_amplitudes_eq_filter, hfil, hfil']

/-- C5 counterexample: the aggregation operations do not return an explicit
"no data" result.  With no matching recordings, calculate_mean_std returns
the plain result tuple whose four entries are the NaN produced by `np.mean`
and `np.std` of an empty list (modelled by `none`), and with an empty window
slice calculate_average_amplitude likewise returns that NaN; no error is
raised and no dedicated no-data value distinct from NaN exists. -/
theorem c5_counterexample_nan_propagates :
    calculate_mean_std [] 1 0 0 1 1 2 (1/20) 1000 = (none, none, none, none)
    ∧ calculate_average_amplitude [(1 : ℚ)] 5 6 1000 = none
    ∧ np_mean [] = (none : Option ℚ) := by
  refine ⟨rfl, ?_, rfl⟩
  unfold calculate_average_amplitude
  dsimp only
  rw [show pyInt ((5 : ℚ) * 1000 / 1000) = (5 : ℤ) by norm_num [pyInt],
    show pyInt ((6 : ℚ) * 1000 / 1000) = (6 : ℤ) by norm_num [pyInt]]
  rfl

/-- C5 (amended): whenever no recordings match the requested binned voltage,
calculate_mean_std silently returns the NaN quadruple (the `np.mean`/`np.std`
of empty lists), and whenever the window slice is empty
calculate_average_amplitude silently returns NaN; neither operation signals
the condition in any other way. -/
theorem c5_amended_empty_aggregation_is_nan :
    (∀ (recs : List Recording) (v : ℚ) (ch : ℕ) (ms me hs he bin sr : ℚ),
      recs.filter (fun r => decide (binned_v bin r = v)) = [] →
      calculate_mean_std recs v ch ms me hs he bin sr = (none, none, none, none))
    ∧ (∀ (l : List ℚ) (s e sr : ℚ),
      pySlice l (pyInt (s * sr / 1000)) (pyInt (e * sr / 1000)) = [] →
      calculate_average_amplitude l s e sr = none) := by
  constructor
  · intro recs v ch ms me hs he bin sr hfil
    unfold calculate_mean_std
    rw [pooled_amplitudes_eq_filter]
    dsimp only
    rw [hfil]
    rfl
  · intro l s e sr hsl
    unfold calculate_average_amplitude
    dsimp only
    rw [hsl]
    rfl

/-- Witness for C5 (amended), at an empty recording list (no recording can
match) and at samples [1] with window 5–6 ms at 1000 Hz (slice [5, 6) of a
one-sample list is empty). -/
theorem c5_amended_empty_aggregation_is_nan_witness :
    (([] : List Recording).filter (fun r => decide (binned_v (1/20) r = 1)) = []
      ∧ calculate_mean_std [] 1 0 0 1 1 2 (1/20) 1000 = (none, none, none, none))
    ∧ (pySlice [(1 : ℚ)] (pyInt ((5 : ℚ) * 1000 / 1000)) (pyInt ((6 : ℚ) * 1000 / 1000)) = []
      ∧ calculate_average_amplitude [(1 : ℚ)] 5 6 1000 = none) := by
  have h1 : ([] : List Recording).filter (fun r => decide (binned_v (1/20) r = 1)) = [] := rfl
  have h2 : pySlice [(1 : ℚ)] (pyInt ((5 : ℚ) * 1000 / 1000))
      (pyInt ((6 : ℚ) * 1000 / 1000)) = [] := by
    rw [show pyInt ((5 : ℚ) * 1000 / 1000) = (5 : ℤ) by norm_num [pyInt],
      show pyInt ((6 : ℚ) * 1000 / 1000) = (6 : ℤ) by norm_num [pyInt]]
    rfl
  exact ⟨⟨h1, c5_amended_empty_aggregation_is_nan.1 [] 1 0 0 1 1 2 (1/20) 1000 h1⟩,
    ⟨h2, c5_amended_empty_aggregation_is_nan.2 [(1 : ℚ)] 5 6 1000 h2⟩⟩

/-- C6 counterexample: constructing a Dataset from an empty session list does
not fail with the spec's dedicated EmptyDatasetError; the code performs no
emptiness check and the failure is the IndexError raised by reading
`emg_sessions[0]`. -/
theorem c6_counterexample_index_error :
    EMGDataset_make cfg0 [] = .error .indexError
    ∧ EMGDataset_make cfg0 [] ≠ .error .emptyDatasetError := by
  refine ⟨rfl, ?_⟩
  intro h
  rw [show EMGDataset_make cfg0 [] = .error .indexError from rfl] at h
  simp at h

/-- C6 (amended): constructing a Dataset from an empty sequence of sessions
fails — with the built-in IndexError from subscripting the empty list, not a
dedicated EmptyDatasetError — and for every non-empty sequence construction
succeeds, capturing scan_rate and num_channels from the first session and
storing the session list. -/
theorem c6_amended_dataset_construction :
    (∀ cfg : Config, EMGDataset_make cfg [] = .error .indexError)
    ∧ (∀ (cfg : Config) (s : EMGSession) (rest : List EMGSession),
        ∃ d : EMGDataset, EMGDataset_make cfg (s :: rest) = .ok d
          ∧ d.scan_rate = s.scan_rate
          ∧ d.num_channels = s.num_channels
          ∧ d.emg_sessions = s :: rest) := by
  refine ⟨fun cfg => rfl, fun cfg s rest => ⟨_, rfl, rfl, rfl, rfl⟩⟩

/-- C8: detect_candidate_h_reflex returns `true` iff max − min of the raw
(non-rectified) H-window samples exceeds the threshold (the witnesses mx/mn
below are the greatest and least elements of the window), and on an empty
window slice it fails explicitly with the ValueError of Python's `max` on an
empty sequence rather than silently returning false. -/
theorem c8_detect_candidate_h_reflex_spec (s : EMGSession) (r : Recording)
    (ch : ℕ) (thr : ℚ) :
    (h_window_slice s r ch = [] →
      detect_candidate_h_reflex s r ch thr = .error .valueError)
    ∧ (h_window_slice s r ch ≠ [] →
      ∃ mx ∈ h_window_slice s r ch, ∃ mn ∈ h_window_slice s r ch,
        (∀ y ∈ h_window_slice s r ch, y ≤ mx)
        ∧ (∀ y ∈ h_window_slice s r ch, mn ≤ y)
        ∧ detect_candidate_h_reflex s r ch thr = .ok (decide (mx - mn > thr))
        ∧ (detect_candidate_h_reflex s r ch thr = .ok true ↔ mx - mn > thr)) := by
  constructor
  · intro hnil
    unfold detect_candidate_h_reflex
    rw [hnil]
    rfl
  · intro hne
    obtain ⟨x, xs, hcons⟩ : ∃ x xs, h_window_slice s r ch = x :: xs := by
      cases hh : h_window_slice s r ch with
      | nil => exact absurd hh hne
      | cons a l => exact ⟨a, l, rfl⟩
    have hdet : detect_candidate_h_reflex s r ch thr
        = .ok (decide (xs.foldl max x - xs.foldl min x > thr)) := by
      unfold detect_candidate_h_reflex
      rw [hcons]
      rfl
    refine ⟨xs.foldl max x, ?_, xs.foldl min x, ?_, ?_, ?_, hdet, ?_⟩
    · rw [hcons]; exact foldl_max_mem x xs
    · rw [hcons]; exact foldl_min_mem x xs
    · rw [hcons]; exact le_foldl_max x xs
    · rw [hcons]; exact foldl_min_le x xs
    · rw [hdet]
      constructor
      · intro hok
        have := Except.ok.inj hok
        exact of_decide_eq_true this
      · intro hgt
        rw [decide_eq_true hgt]

/-- Witness for C8: with session `sess0` the 4–7 ms window of `rec0`'s
two-sample channel is empty and detection fails with ValueError; with
session `sess8` the window of `rec8` holds [5, 1, 0] and detection at
threshold 0.3 succeeds. -/
theorem c8_detect_candidate_h_reflex_spec_witness :
    (h_window_slice sess0 rec0 0 = []
      ∧ detect_candidate_h_reflex sess0 rec0 0 (3/10) = .error .valueError)
    ∧ (h_window_slice sess8 rec8 0 ≠ []
      ∧ ∃ mx ∈ h_window_slice sess8 rec8 0, ∃ mn ∈ h_window_slice sess8 rec8 0,
          (∀ y ∈ h_window_slice sess8 rec8 0, y ≤ mx)
          ∧ (∀ y ∈ h_window_slice sess8 rec8 0, mn ≤ y)
          ∧ detect_candidate_h_reflex sess8 rec8 0 (3/10) = .ok (decide (mx - mn > 3/10))
          ∧ (detect_candidate_h_reflex sess8 rec8 0 (3/10) = .ok true ↔ mx - mn > 3/10)) := by
  have hw0 : h_window_slice sess0 rec0 0 = [] := by
    unfold h_window_slice
    rw [show pyInt (sess0.h_start * sess0.scan_rate / 1000) = (4 : ℤ) by
        norm_num [pyInt, sess0],
      show pyInt (sess0.h_end * sess0.scan_rate / 1000) = (7 : ℤ) by
        norm_num [pyInt, sess0]]
    rfl
  have hw8 : h_window_slice sess8 rec8 0 = [(5 : ℚ), 1, 0] := by
    unfold h_window_slice
    rw [show pyInt (sess8.h_start * sess8.scan_rate / 1000) = (4 : ℤ) by
        norm_num [pyInt, sess8],
      show pyInt (sess8.h_end * sess8.scan_rate / 1000) = (7 : ℤ) by
        norm_num [pyInt, sess8]]
    rfl
  have hne : h_window_slice sess8 rec8 0 ≠ [] := by
    rw [hw8]
    exact List.cons_ne_nil _ _
  exact ⟨⟨hw0, (c8_detect_candidate_h_reflex_spec sess0 rec0 0 (3/10)).1 hw0⟩,
    ⟨hne, (c8_detect_candidate_h_reflex_spec sess8 rec8 0 (3/10)).2 hne⟩⟩

/-- C10: every target voltage used by the dataset-level reflex-curve
computation is itself a binned voltage of the same pooled recordings with the
same bin size, so at least one recording matches it, and for every channel
the amplitude lists handed to np.mean/np.std by calculate_mean_std are
non-empty — the empty-aggregation branch is unreachable from that caller. -/
theorem c10_reflex_curve_targets_always_match (d : EMGDataset) (v : ℚ)
    (hv : v ∈ dataset_stimulus_voltages d) :
    (dataset_sorted_recordings d).filter
        (fun r => decide (binned_v d.bin_size r = v)) ≠ []
    ∧ ∀ ch : ℕ,
      (pooled_amplitudes (dataset_sorted_recordings d) v ch d.m_start d.m_end
          d.h_start d.h_end d.bin_size d.scan_rate).1 ≠ []
      ∧ (pooled_amplitudes (dataset_sorted_recordings d) v ch d.m_start d.m_end
          d.h_start d.h_end d.bin_size d.scan_rate).2 ≠ [] := by
  unfold dataset_stimulus_voltages at hv
  have hv' : v ∈ ((dataset_sorted_recordings d).map
      (fun r => binned_v d.bin_size r)).dedup :=
    (List.mergeSort_perm _ _).mem_iff.mp hv
  obtain ⟨r, hr, hrv⟩ := List.mem_map.mp (List.mem_dedup.mp hv')
  have hmemfil : r ∈ (dataset_sorted_recordings d).filter
      (fun r => decide (binned_v d.bin_size r = v)) :=
    List.mem_filter.mpr ⟨hr, by simp [hrv]⟩
  have hfil := List.ne_nil_of_mem hmemfil
  refine ⟨hfil, fun ch => ?_⟩
  rw [pooled_amplitudes_eq_filter]
  exact ⟨by simpa using hfil, by simpa using hfil⟩

/-- Witness for C10 at the one-recording dataset `ds0` with 1 V bins, whose
only target voltage is 1 V. -/
theorem c10_reflex_curve_targets_always_match_witness :
    (1 : ℚ) ∈ dataset_stimulus_voltages ds0
    ∧ (dataset_sorted_recordings ds0).filter
        (fun r => decide (binned_v ds0.bin_size r = 1)) ≠ [] := by
  have hdsr : dataset_sorted_recordings ds0 = [rec0] := by
    unfold dataset_sorted_recordings
    rw [show ds0.emg_sessions.foldl (fun acc s => acc ++ s.recordings) [] = [rec0]
      from rfl]
    exact List.mergeSort_singleton _
  have hbv : binned_v ds0.bin_size rec0 = 1 := by
    norm_num [binned_v, pyRound, rec0, ds0]
  have hv : (1 : ℚ) ∈ dataset_stimulus_voltages ds0 := by
    unfold dataset_stimulus_voltages
    rw [hdsr]
    rw [show [rec0].map (fun r => binned_v ds0.bin_size r) = [1] by simp [hbv]]
    rw [show ([(1 : ℚ)]).dedup = [1] by simp]
    rw [List.mergeSort_singleton]
    exact List.mem_singleton.mpr rfl
  exact ⟨hv, (c10_reflex_curve_targets_always_match ds0 1 hv).1⟩
